import Mathlib

/-!
Verification of the local-agentic-rag ingestion/retrieval core.

Shallow embedding of the Python sources:
  app/ingestion/chunker.py   (TextChunker)
  app/ingestion/metadata.py  (MetadataExtractor)
  app/tools/ingest.py        (DocumentIngestionTool)
  app/tools/retrieve.py      (RetrievalTool.format_context_for_agent)

Conventions of the embedding:
* Python dicts holding chunk metadata become association lists
  (`Md`) over a small value type `MVal` (strings and naturals); `dictInsert`
  overwrites in place like `d[k] = v`, `dictGet` is `d.get(k)`.
* The tiktoken tokenizer is a parameter `cnt : String → Nat`; theorems that
  need it assume only subadditivity over space-joins, and witnesses use the
  concrete executable tokenizer `charCnt` (non-space character count).
* In-place mutation (chunk_document writing `metadata["section"]`) is made
  explicit: the function returns both its result and the post-state of the
  structural units it consumed.
* Fallible external calls (parser, embedding provider, vector store) are
  `Except`/`Option`-valued fields of an `IngestEnv`; a caught Python exception
  is an `error` value.  The store `add` is modelled as atomic: on failure the
  store is unchanged, matching the spec's single-terminal-step contract.
-/

/-- Metadata values: strings or integers (page numbers, chunk indices). -/
inductive MVal where
  | s (v : String)
  | n (v : Nat)
deriving DecidableEq

/-- A Python dict used for chunk metadata, as an association list. -/
abbrev Md := List (String × MVal)

/-- `d.get(k)`: first binding of `k`. -/
def dictGet : Md → String → Option MVal
  | [], _ => none
  | (k0, v0) :: rest, k => if k0 = k then some v0 else dictGet rest k

/-- `d[k] = v`: overwrite the existing binding in place, else append. -/
def dictInsert (k : String) (v : MVal) : Md → Md
  | [] => [(k, v)]
  | (k0, v0) :: rest =>
      if k0 = k then (k, v) :: rest else (k0, v0) :: dictInsert k v rest

/-- Decimal digit character (only applied to `n < 10`). -/
def digitChar : Nat → Char
  | 0 => '0' | 1 => '1' | 2 => '2' | 3 => '3' | 4 => '4'
  | 5 => '5' | 6 => '6' | 7 => '7' | 8 => '8' | 9 => '9'
  | _ => '*'

/-- Numeric value of a decimal digit character. -/
def charVal : Char → Nat
  | '0' => 0 | '1' => 1 | '2' => 2 | '3' => 3 | '4' => 4
  | '5' => 5 | '6' => 6 | '7' => 7 | '8' => 8 | '9' => 9
  | _ => 10

/-- Decimal digits of `n`, most significant first; fuel-structured so that the
kernel can evaluate it (`fuel > n` suffices). -/
def natDigitsCore : Nat → Nat → List Char
  | 0, _ => []
  | fuel + 1, n =>
      if n < 10 then [digitChar n]
      else natDigitsCore fuel (n / 10) ++ [digitChar (n % 10)]

/-- Decimal rendering of a natural number (Python `str(n)` / f-string). -/
def natRepr (n : Nat) : String := (natDigitsCore (n + 1) n).asString

/-- Reads a digit string back as a number (for injectivity of `natRepr`). -/
def digitsVal (l : List Char) : Nat := l.foldl (fun a c => 10 * a + charVal c) 0

/-- Python `s.replace(old, new)` restricted to single-character arguments,
which is all `generate_chunk_id` uses. -/
def replaceChar (old new : Char) (s : String) : String :=
  (s.data.map fun c => if c = old then new else c).asString

/-- `Path(p).name`: the component after the last slash. -/
def pathName (p : String) : String :=
  ((p.data.reverse.takeWhile fun c => !(c = '/')).reverse).asString

/-- Index of the last `.` in a name (`str.rfind('.')` when present). -/
def lastDotIdx (name : List Char) : Option Nat :=
  match name.reverse.findIdx? fun c => c = '.' with
  | none => none
  | some k => some (name.length - 1 - k)

/-- `Path(name).stem`: drop the last suffix, with pathlib's guard
`0 < i < len(name) - 1` on the dot position. -/
def pathStem (name : String) : String :=
  match lastDotIdx name.data with
  | some i =>
      if 0 < i ∧ i < name.data.length - 1 then (name.data.take i).asString else name
  | none => name

/-- Lower-casing (`str.lower`), over the character list. -/
def strLower (s : String) : String := (s.data.map Char.toLower).asString

/-- `Path(p).suffix.lstrip('.').lower()`: the extension used to select a
parser in `ingest_document`. -/
def fileTypeOf (p : String) : String :=
  let name := pathName p
  match lastDotIdx name.data with
  | some i =>
      if 0 < i ∧ i < name.data.length - 1 then
        strLower ((name.data.drop (i + 1)).asString)
      else ""
  | none => ""

/-- `MetadataExtractor.generate_chunk_id`. -/
def generateChunkId (filename : String) (sect : String) (chunkIndex : Nat) : String :=
  let cleanFilename := replaceChar ' ' '_' (pathStem filename)
  let cleanSection := replaceChar ':' '_' (replaceChar ' ' '_' sect)
  cleanFilename ++ "__" ++ cleanSection ++ "__chunk_" ++ natRepr chunkIndex

/-- `MetadataExtractor.enrich_chunk_metadata`.  The first component is the
state of the caller's `metadata` dict after the call: the code writes only to
`metadata.copy()`, so it is returned unchanged.  `now` stands for
`datetime.now().isoformat()`, used when no timestamp is supplied. -/
def enrichChunkMetadata (metadata : Md) (filename : String) (fileType : String)
    (uploadTimestamp : Option String) (now : String) : Md × Md :=
  let enriched := metadata
  let enriched := dictInsert "filename" (MVal.s filename) enriched
  let enriched := dictInsert "file_type" (MVal.s fileType) enriched
  let ts := uploadTimestamp.getD now
  let enriched := dictInsert "upload_timestamp" (MVal.s ts) enriched
  let enriched :=
    if (dictGet enriched "section").isNone then
      dictInsert "section" (MVal.s "Unknown") enriched
    else enriched
  (metadata, enriched)

/-- Rendering of a metadata value inside an f-string. -/
def mvalStr : MVal → String
  | MVal.s v => v
  | MVal.n v => natRepr v

/-- `MetadataExtractor.create_citation`. -/
def createCitation (metadata : Md) : String :=
  let filename := (dictGet metadata "filename").map mvalStr |>.getD "Unknown file"
  let sect := (dictGet metadata "section").map mvalStr |>.getD "Unknown section"
  match dictGet metadata "page_number" with
  | some p => filename ++ ", Page " ++ mvalStr p
  | none =>
    match dictGet metadata "slide_number" with
    | some sl => filename ++ ", Slide " ++ mvalStr sl
    | none =>
      match dictGet metadata "sheet_name" with
      | some sh => filename ++ ", Sheet: " ++ mvalStr sh
      | none => filename ++ ", " ++ sect

/-- A structural unit from a document parser: the dict
`{text, section, metadata}` that every parser emits. -/
structure SUnit where
  text : String
  sect : String
  metadata : Md
deriving DecidableEq

/-- A passage produced by the chunker: `{text, metadata}`. -/
structure Chunk where
  text : String
  metadata : Md
deriving DecidableEq

/-- `" ".join(parts)`. -/
def joinSp : List String → String
  | [] => ""
  | [s] => s
  | s :: rest => s ++ " " ++ joinSp rest

/-- Is the previously consumed character (head of the reversed accumulator)
sentence-terminal punctuation? -/
def isTermAcc : List Char → Bool
  | [] => false
  | p :: _ => p = '.' || p = '!' || p = '?'

/-- Core of `re.split(r'(?<=[.!?])\s+', text)`: cut at every maximal
whitespace run whose start is preceded by `.`, `!` or `?`.  `acc` is the
current piece reversed; the flag records being inside a separator run. -/
def sentSplitAux : List Char → List Char → Bool → List (List Char)
  | [], acc, _ => [acc.reverse]
  | c :: rest, acc, false =>
      if c.isWhitespace && isTermAcc acc then acc.reverse :: sentSplitAux rest [] true
      else sentSplitAux rest (c :: acc) false
  | c :: rest, acc, true =>
      if c.isWhitespace then sentSplitAux rest acc true
      else sentSplitAux rest (c :: acc) false

/-- `piece.split("\n\n")`: cut at every non-overlapping blank-line marker. -/
def splitNlNl : List Char → List Char → List String
  | [], acc => [acc.reverse.asString]
  | '\n' :: '\n' :: rest, acc => acc.reverse.asString :: splitNlNl rest []
  | c :: rest, acc => splitNlNl rest (c :: acc)

/-- Python `str.strip()` over the character list. -/
def strTrim (s : String) : String :=
  (((s.data.dropWhile Char.isWhitespace).reverse.dropWhile Char.isWhitespace).reverse).asString

/-- `TextChunker._split_into_sentences`: sentence-boundary split, then
blank-line split, then trim and drop empties. -/
def splitIntoSentences (text : String) : List String :=
  let sentences := (sentSplitAux text.data [] false).map List.asString
  let finalSentences := sentences.flatMap fun s => splitNlNl s.data []
  (finalSentences.map strTrim).filter fun s => !(s == "")

/-- The backward walk of `TextChunker._get_overlap_text`, over the reversed
fragment list: keep taking fragments while the running total stays within the
overlap budget. -/
def overlapSel (cnt : String → Nat) (overlapTokens : Nat) :
    List String → Nat → List String
  | [], _ => []
  | s :: rest, total =>
      if total + cnt s > overlapTokens then []
      else s :: overlapSel cnt overlapTokens rest (total + cnt s)

/-- `TextChunker._get_overlap_text(sentences, overlap_tokens)`: suffix of the
fragments worth at most `overlap_tokens`, joined in original order. -/
def getOverlapText (cnt : String → Nat) (sentences : List String)
    (overlapTokens : Nat) : String :=
  joinSp (overlapSel cnt overlapTokens sentences.reverse 0).reverse

/-- The fragment-accumulation loop of `TextChunker.chunk_text`, returning each
emitted passage as its list of fragments (the code keeps `current_chunk` as a
list and joins with a space on emission). -/
def chunkCore (cnt : String → Nat) (maxSize overlapSize : Nat) :
    List String → List String → Nat → List (List String)
  | [], cur, _ => if cur = [] then [] else [cur]
  | s :: rest, cur, curTok =>
      if curTok + cnt s > maxSize ∧ ¬cur = [] then
        let overlapText := getOverlapText cnt cur overlapSize
        let cur2 : List String := if overlapText = "" then [] else [overlapText]
        let tok2 : Nat := if overlapText = "" then 0 else cnt overlapText
        cur :: chunkCore cnt maxSize overlapSize rest (cur2 ++ [s]) (tok2 + cnt s)
      else
        chunkCore cnt maxSize overlapSize rest (cur ++ [s]) (curTok + cnt s)

/-- `TextChunker.chunk_text(text, metadata)`. -/
def chunkText (cnt : String → Nat) (maxSize overlapSize : Nat)
    (text : String) (metadata : Md) : List Chunk :=
  if cnt text ≤ maxSize then
    [⟨text, dictInsert "total_chunks" (MVal.n 1)
        (dictInsert "chunk_index" (MVal.n 0) metadata)⟩]
  else
    let sentences := splitIntoSentences text
    let frags := chunkCore cnt maxSize overlapSize sentences [] 0
    let chunks := frags.enum.map fun p =>
      Chunk.mk (joinSp p.2) (dictInsert "chunk_index" (MVal.n p.1) metadata)
    chunks.map fun c =>
      ⟨c.text, dictInsert "total_chunks" (MVal.n frags.length) c.metadata⟩

/-- `TextChunker.chunk_document(parsed_chunks)`.  The second component is the
post-state of the structural units: `metadata["section"] = section` writes
into each unit's own metadata dict before chunking, so the units come back
with that binding inserted. -/
def chunkDocument (cnt : String → Nat) (maxSize overlapSize : Nat) :
    List SUnit → List Chunk × List SUnit
  | [] => ([], [])
  | u :: rest =>
      let md2 := dictInsert "section" (MVal.s u.sect) u.metadata
      let textChunks := chunkText cnt maxSize overlapSize u.text md2
      let (restChunks, restUnits) := chunkDocument cnt maxSize overlapSize rest
      (textChunks ++ restChunks, { u with metadata := md2 } :: restUnits)

/-- Token sum of a fragment list (the running `current_tokens` bookkeeping). -/
def sumCnt (cnt : String → Nat) (l : List String) : Nat := (l.map cnt).sum

/-- The concrete executable tokenizer used by witnesses: number of non-space
characters (exactly additive over space-joins). -/
def charCnt (s : String) : Nat := (s.data.filter fun c => !(c == ' ')).length

/-- `.get("section", "")` as used by the ID-generation step (the value is a
string whenever it is present, since both the chunker and the enricher store
strings there). -/
def getSectionStr (metadata : Md) : String :=
  match dictGet metadata "section" with
  | some (MVal.s v) => v
  | _ => ""

/-- Per-file ingestion result dict
`{success, file, error?, file_type?, chunks_created?, total_tokens?, upload_timestamp?}`. -/
structure IngestResult where
  success : Bool
  file : String
  error : Option String
  fileType : Option String
  chunksCreated : Option Nat
  totalTokens : Option Nat
  uploadTimestamp : Option String
deriving DecidableEq

/-- One persisted vector-store record. -/
structure StoredChunk (Emb : Type) where
  id : String
  text : String
  metadata : Md
  emb : Emb
deriving DecidableEq

/-- The vector store's contents, keyed by `id`. -/
abbrev Store (Emb : Type) := List (StoredChunk Emb)

/-- Insert-or-overwrite by primary key (the store keys records by `id`). -/
def upsertChunk {Emb : Type} (c : StoredChunk Emb) : Store Emb → Store Emb
  | [] => [c]
  | e :: rest => if e.id = c.id then c :: rest else e :: upsertChunk c rest

/-- `chroma_client.add_chunks(chunks, metadatas, ids, embeddings)` on success:
the zipped records are stored under their ids. -/
def addChunksModel {Emb : Type} (store : Store Emb) (texts : List String)
    (metadatas : List Md) (ids : List String) (embeddings : List Emb) : Store Emb :=
  ((ids.zip (texts.zip (metadatas.zip embeddings))).map
    fun p => StoredChunk.mk p.1 p.2.1 p.2.2.1 p.2.2.2).foldl
    (fun st c => upsertChunk c st) store

/-- External collaborators of `DocumentIngestionTool`: the parser registry,
the embedding provider, the store's accept/reject decision for an `add`, and
the clock.  An `Except.error`/`some` value is a raised-and-caught exception. -/
structure IngestEnv (Emb : Type) where
  parse : String → String → Except String (List SUnit)
  embedTexts : List String → Except String (List Emb)
  addOk : Store Emb → List String → List Md → List String → List Emb → Option String
  now : String

/-- Steps 2–3 of `ingest_document`: chunk the parsed units, then enrich every
chunk's metadata (keeping the enriched copy). -/
def ingestChunks (cnt : String → Nat) (maxSize overlapSize : Nat)
    (name fileType now : String) (units : List SUnit) : List Chunk :=
  (chunkDocument cnt maxSize overlapSize units).1.map fun c =>
    ⟨c.text, (enrichChunkMetadata c.metadata name fileType (some now) now).2⟩

/-- Step 5 of `ingest_document`: one ID per chunk, built from the filename,
the chunk's `section` metadata, and the chunk's position `idx` in the
document-wide `enumerate(chunked_documents)`. -/
def ingestIdsOf (name : String) (chunks : List Chunk) : List String :=
  chunks.enum.map fun p => generateChunkId name (getSectionStr p.2.metadata) p.1

/-- An error result `{success: False, error, file}`. -/
def failResult (e file : String) : IngestResult :=
  ⟨false, file, some e, none, none, none, none⟩

/-- `DocumentIngestionTool.ingest_document(file_path)`, with the post-state of
the vector store as second component. -/
def ingestDocument {Emb : Type} (env : IngestEnv Emb) (cnt : String → Nat)
    (maxSize overlapSize : Nat) (store : Store Emb) (filePath : String) :
    IngestResult × Store Emb :=
  let name := pathName filePath
  let fileType := fileTypeOf filePath
  if fileType ∈ ["pdf", "pptx", "docx", "xlsx"] then
    match env.parse fileType filePath with
    | Except.error e => (failResult e name, store)
    | Except.ok parsedChunks =>
      if parsedChunks = [] then
        (failResult "No content extracted from document" name, store)
      else
        let chunkedDocuments := ingestChunks cnt maxSize overlapSize name fileType env.now parsedChunks
        let texts := chunkedDocuments.map Chunk.text
        match env.embedTexts texts with
        | Except.error e => (failResult e name, store)
        | Except.ok embeddings =>
          let ids := ingestIdsOf name chunkedDocuments
          let metadatas := chunkedDocuments.map Chunk.metadata
          match env.addOk store texts metadatas ids embeddings with
          | some e => (failResult e name, store)
          | none =>
            (⟨true, name, none, some fileType, some chunkedDocuments.length,
               some ((texts.map cnt).sum), some env.now⟩,
             addChunksModel store texts metadatas ids embeddings)
  else
    (failResult ("Unsupported file type: " ++ fileType) name, store)

/-- The per-file loop of `ingest_multiple_documents`, threading the store. -/
def ingestMany {Emb : Type} (env : IngestEnv Emb) (cnt : String → Nat)
    (maxSize overlapSize : Nat) (store : Store Emb) :
    List String → List IngestResult × Store Emb
  | [] => ([], store)
  | p :: ps =>
      let first := ingestDocument env cnt maxSize overlapSize store p
      let rest := ingestMany env cnt maxSize overlapSize first.2 ps
      (first.1 :: rest.1, rest.2)

/-- Batch result dict `{total_files, successful, failed, results, total_chunks}`. -/
structure BatchResult where
  totalFiles : Nat
  successful : Nat
  failed : Nat
  results : List IngestResult
  totalChunks : Nat
deriving DecidableEq

/-- `DocumentIngestionTool.ingest_multiple_documents(file_paths)`. -/
def ingestMultipleDocuments {Emb : Type} (env : IngestEnv Emb) (cnt : String → Nat)
    (maxSize overlapSize : Nat) (store : Store Emb) (filePaths : List String) :
    BatchResult × Store Emb :=
  let out := ingestMany env cnt maxSize overlapSize store filePaths
  (⟨filePaths.length,
    (out.1.filter fun r => r.success).length,
    (out.1.filter fun r => !r.success).length,
    out.1,
    ((out.1.filter fun r => r.success).map fun r => r.chunksCreated.getD 0).sum⟩,
   out.2)

/-- The subset of a retrieval result dict read by
`format_context_for_agent`: `success`, `chunks`, `citations`. -/
structure RetrievalResult where
  success : Bool
  chunks : List String
  citations : List String
deriving DecidableEq

/-- `"\n".join(parts)`. -/
def joinNl : List String → String
  | [] => ""
  | [s] => s
  | s :: rest => s ++ "\n" ++ joinNl rest

/-- Concatenation of strings (for the closed form of the context block). -/
def strJoin : List String → String
  | [] => ""
  | s :: rest => s ++ strJoin rest

/-- `RetrievalTool.format_context_for_agent(retrieval_result)`. -/
def formatContextForAgent (r : RetrievalResult) : String :=
  if !r.success then "No relevant information found in the database."
  else if r.chunks = [] then "No relevant information found in the database."
  else
    let parts := "Retrieved information from documents:\n" ::
      (r.chunks.zip r.citations).enum.flatMap fun p =>
        ["\n[Source " ++ natRepr (p.1 + 1) ++ ": " ++ p.2.2 ++ "]", p.2.1, ""]
    joinNl parts

lemma stringExt {a b : String} (h : a.data = b.data) : a = b := by
  cases a; cases b; exact congrArg String.mk h

lemma charCnt_space_append (a b : String) :
    charCnt (a ++ " " ++ b) = charCnt a + charCnt b := by
  simp [charCnt, String.data_append, List.filter_append]

lemma charCnt_nil : charCnt "" = 0 := rfl

lemma joinSp_le (cnt : String → Nat)
    (hadd : ∀ a b, cnt (a ++ " " ++ b) ≤ cnt a + cnt b) :
    ∀ l : List String, l ≠ [] → cnt (joinSp l) ≤ sumCnt cnt l
  | [], h => absurd rfl h
  | [s], _ => by simp [joinSp, sumCnt]
  | s :: s2 :: rest, _ => by
      have ih := joinSp_le cnt hadd (s2 :: rest) (by simp)
      calc cnt (joinSp (s :: s2 :: rest)) = cnt (s ++ " " ++ joinSp (s2 :: rest)) := by
            simp [joinSp]
        _ ≤ cnt s + cnt (joinSp (s2 :: rest)) := hadd ..
        _ ≤ cnt s + sumCnt cnt (s2 :: rest) := Nat.add_le_add_left ih _
        _ = sumCnt cnt (s :: s2 :: rest) := by simp [sumCnt]

lemma overlapSel_sum (cnt : String → Nat) (overlapTokens : Nat) :
    ∀ (l : List String) (total : Nat), total ≤ overlapTokens →
      total + sumCnt cnt (overlapSel cnt overlapTokens l total) ≤ overlapTokens
  | [], total, h => by simpa [overlapSel, sumCnt] using h
  | s :: rest, total, h => by
      by_cases hc : total + cnt s > overlapTokens
      · simpa [overlapSel, hc, sumCnt] using h
      · have hle : total + cnt s ≤ overlapTokens := Nat.le_of_not_lt hc
        have ih := overlapSel_sum cnt overlapTokens rest (total + cnt s) hle
        simp only [overlapSel, hc, if_false, sumCnt, List.map_cons, List.sum_cons] at ih ⊢
        omega

lemma overlapSel_prefix (cnt : String → Nat) (overlapTokens : Nat) :
    ∀ (l : List String) (total : Nat),
      overlapSel cnt overlapTokens l total <+: l
  | [], _ => by simp [overlapSel]
  | s :: rest, total => by
      by_cases hc : total + cnt s > overlapTokens
      · simp [overlapSel, hc]
      · simp only [overlapSel, hc, if_false]
        exact List.cons_prefix_cons.mpr ⟨rfl, overlapSel_prefix cnt overlapTokens rest (total + cnt s)⟩

lemma sumCnt_reverse (cnt : String → Nat) (l : List String) :
    sumCnt cnt l.reverse = sumCnt cnt l := by
  simp [sumCnt, List.map_reverse, List.sum_reverse]

lemma getOverlapText_le (cnt : String → Nat) (overlapTokens : Nat)
    (hadd : ∀ a b, cnt (a ++ " " ++ b) ≤ cnt a + cnt b) (hnil : cnt "" = 0)
    (sentences : List String) :
    cnt (getOverlapText cnt sentences overlapTokens) ≤ overlapTokens := by
  unfold getOverlapText
  rcases h : overlapSel cnt overlapTokens sentences.reverse 0 with _ | ⟨s, rest⟩
  · simp [joinSp, hnil]
  · have hsum : sumCnt cnt (s :: rest) ≤ overlapTokens := by
      have := overlapSel_sum cnt overlapTokens sentences.reverse 0 (Nat.zero_le _)
      rw [h] at this; simpa using this
    have hne : (s :: rest).reverse ≠ [] := by simp
    calc cnt (joinSp (s :: rest).reverse) ≤ sumCnt cnt (s :: rest).reverse :=
          joinSp_le cnt hadd _ hne
      _ = sumCnt cnt (s :: rest) := sumCnt_reverse ..
      _ ≤ overlapTokens := hsum

/-- C5: the overlap tail seeded into the next passage is a suffix of the
just-closed passage's fragments (whole fragments, joined in original order),
its total fragment token count stays within `overlap_size`, and for any
tokenizer that is subadditive over space-joins the joined overlap string
itself has token count at most `overlap_size`. -/
theorem overlap_tail_spec (cnt : String → Nat) (overlapTokens : Nat)
    (hadd : ∀ a b, cnt (a ++ " " ++ b) ≤ cnt a + cnt b) (hnil : cnt "" = 0)
    (sentences : List String) :
    ((overlapSel cnt overlapTokens sentences.reverse 0).reverse <:+ sentences) ∧
    sumCnt cnt (overlapSel cnt overlapTokens sentences.reverse 0) ≤ overlapTokens ∧
    cnt (getOverlapText cnt sentences overlapTokens) ≤ overlapTokens := by
  refine ⟨?_, ?_, getOverlapText_le cnt overlapTokens hadd hnil sentences⟩
  · have hp : overlapSel cnt overlapTokens sentences.reverse 0 <+: sentences.reverse :=
      overlapSel_prefix ..
    have := List.reverse_suffix.mpr hp
    rw [List.reverse_reverse] at this
    exact this
  · have := overlapSel_sum cnt overlapTokens sentences.reverse 0 (Nat.zero_le _)
    simpa using this

/-- Witness for `overlap_tail_spec` at the concrete tokenizer `charCnt`,
overlap budget 3 and a concrete closed passage. -/
theorem overlap_tail_spec_witness :
    ((overlapSel charCnt 3 ["aaaaaaaa.", "bb."].reverse 0).reverse <:+ ["aaaaaaaa.", "bb."]) ∧
    sumCnt charCnt (overlapSel charCnt 3 ["aaaaaaaa.", "bb."].reverse 0) ≤ 3 ∧
    charCnt (getOverlapText charCnt ["aaaaaaaa.", "bb."] 3) ≤ 3 :=
  overlap_tail_spec charCnt 3
    (fun a b => Nat.le_of_eq (charCnt_space_append a b)) charCnt_nil
    ["aaaaaaaa.", "bb."]

lemma sumCnt_cons (cnt : String → Nat) (s : String) (l : List String) :
    sumCnt cnt (s :: l) = cnt s + sumCnt cnt l := by simp [sumCnt]

lemma sumCnt_append (cnt : String → Nat) (l1 l2 : List String) :
    sumCnt cnt (l1 ++ l2) = sumCnt cnt l1 + sumCnt cnt l2 := by simp [sumCnt]

lemma chunkCore_ne_nil (cnt : String → Nat) (maxSize overlapSize : Nat) :
    ∀ (rest cur : List String) (curTok : Nat),
      ∀ C ∈ chunkCore cnt maxSize overlapSize rest cur curTok, C ≠ []
  | [], cur, curTok => by
      by_cases h : cur = [] <;> simp [chunkCore, h]
  | s :: rest, cur, curTok => by
      intro C hC
      by_cases hc : curTok + cnt s > maxSize ∧ ¬cur = []
      · simp only [chunkCore, hc, if_true] at hC
        rcases List.mem_cons.mp hC with h | h
        · exact h ▸ hc.2
        · exact chunkCore_ne_nil cnt maxSize overlapSize rest _ _ C h
      · simp only [chunkCore, hc, if_false] at hC
        exact chunkCore_ne_nil cnt maxSize overlapSize rest _ _ C hC

lemma chunkCore_sizes (cnt : String → Nat) (maxSize overlapSize : Nat)
    (hadd : ∀ a b, cnt (a ++ " " ++ b) ≤ cnt a + cnt b) (hnil : cnt "" = 0) :
    ∀ (rest cur : List String) (curTok : Nat),
      (∀ s ∈ rest, cnt s ≤ maxSize) →
      curTok = sumCnt cnt cur →
      sumCnt cnt cur ≤ maxSize + overlapSize →
      ∀ C ∈ chunkCore cnt maxSize overlapSize rest cur curTok,
        sumCnt cnt C ≤ maxSize + overlapSize
  | [], cur, curTok => by
      intro _ _ hcur C hC
      by_cases h : cur = [] <;> simp only [chunkCore, h, if_true, if_false] at hC
      · cases hC
      · rcases List.mem_singleton.mp hC with rfl; exact hcur
  | s :: rest, cur, curTok => by
      intro hrest htok hcur C hC
      have hs : cnt s ≤ maxSize := hrest s (List.mem_cons_self ..)
      have hrest2 : ∀ x ∈ rest, cnt x ≤ maxSize := fun x hx => hrest x (List.mem_cons_of_mem _ hx)
      by_cases hc : curTok + cnt s > maxSize ∧ ¬cur = []
      · simp only [chunkCore] at hC
        rw [if_pos hc] at hC
        rcases List.mem_cons.mp hC with h | h
        · exact h ▸ hcur
        · have hovle := getOverlapText_le cnt overlapSize hadd hnil cur
          set g := getOverlapText cnt cur overlapSize with hg
          set L : List String := if g = "" then [] else [g] with hL
          set T : Nat := if g = "" then 0 else cnt g with hT0
          have hT : T + cnt s = sumCnt cnt (L ++ [s]) := by
            by_cases hov : g = "" <;> simp [hT0, hL, hov, sumCnt]
          have hB : sumCnt cnt (L ++ [s]) ≤ maxSize + overlapSize := by
            rw [← hT]
            by_cases hov : g = ""
            · rw [hT0]; simp only [hov, if_pos]; omega
            · rw [hT0]; simp only [hov, if_neg, if_false]; omega
          exact chunkCore_sizes cnt maxSize overlapSize hadd hnil rest _ _ hrest2 hT hB C h
      · simp only [chunkCore] at hC
        rw [if_neg hc] at hC
        have hor : ¬(curTok + cnt s > maxSize) ∨ cur = [] := by tauto
        have htok2 : curTok + cnt s = sumCnt cnt (cur ++ [s]) := by
          rw [sumCnt_append, htok]; simp [sumCnt]
        have hbound : sumCnt cnt (cur ++ [s]) ≤ maxSize + overlapSize := by
          rw [← htok2]
          rcases hor with h | h
          · omega
          · have hz : curTok = 0 := by simpa [sumCnt, h] using htok
            omega
        exact chunkCore_sizes cnt maxSize overlapSize hadd hnil rest _ _ hrest2 htok2 hbound C hC

/-- C1 (amended): with a tokenizer that is subadditive over space-joins and
vanishes on the empty string, and parameters `overlap_size < min_chunk_size <
max_chunk_size`, every passage emitted by `chunk_text` whose fragments are
each individually within `max_chunk_size` has token count at most
`max_chunk_size + overlap_size` (the overlap seed plus the triggering
fragment can push a passage past `max_chunk_size` alone, but never past this
bound). -/
theorem chunk_size_bound (cnt : String → Nat) (minSize maxSize overlapSize : Nat)
    (hadd : ∀ a b, cnt (a ++ " " ++ b) ≤ cnt a + cnt b) (hnil : cnt "" = 0)
    (_hov : overlapSize < minSize) (_hmin : minSize < maxSize)
    (text : String) (metadata : Md)
    (hfrag : ∀ s ∈ splitIntoSentences text, cnt s ≤ maxSize) :
    ∀ c ∈ chunkText cnt maxSize overlapSize text metadata,
      cnt c.text ≤ maxSize + overlapSize := by
  intro c hc
  by_cases hsmall : cnt text ≤ maxSize
  · simp only [chunkText, hsmall, if_true, List.mem_singleton] at hc
    subst hc
    exact Nat.le_trans hsmall (Nat.le_add_right ..)
  · simp only [chunkText, hsmall, if_false, List.mem_map] at hc
    obtain ⟨c1, ⟨p, hp, rfl⟩, rfl⟩ := hc
    have hmem : p.2 ∈ chunkCore cnt maxSize overlapSize (splitIntoSentences text) [] 0 := by
      have := List.mem_map_of_mem Prod.snd hp
      rwa [List.enum_map_snd] at this
    have hsum : sumCnt cnt p.2 ≤ maxSize + overlapSize :=
      chunkCore_sizes cnt maxSize overlapSize hadd hnil _ [] 0 hfrag (by simp [sumCnt])
        (by simp [sumCnt]) p.2 hmem
    have hne : p.2 ≠ [] := chunkCore_ne_nil cnt maxSize overlapSize _ [] 0 p.2 hmem
    exact Nat.le_trans (joinSp_le cnt hadd p.2 hne) hsum

/-- Counterexample to C1 as stated: with the (space-additive) tokenizer
`charCnt` and parameters `overlap=3 < min=5 < max=10`, every fragment of the
split is individually within `max_chunk_size = 10`, yet `chunk_text` emits a
passage of 13 tokens (the overlap seed `"bb."` plus the 10-token sentence
appended right after the close, with no size re-check). -/
theorem chunk_size_bound_cex :
    (3 < 5 ∧ 5 < 10) ∧
    (∀ s ∈ splitIntoSentences "aaaaaaaa. bb. ccccccccc.", charCnt s ≤ 10) ∧
    ∃ c ∈ chunkText charCnt 10 3 "aaaaaaaa. bb. ccccccccc." [],
      10 < charCnt c.text := by decide

/-- Witness for `chunk_size_bound` at a concrete passage of a concrete text
whose fragments are all within the maximum size. -/
theorem chunk_size_bound_witness :
    charCnt (Chunk.mk "aaaaaaaa."
      [("chunk_index", MVal.n 0), ("total_chunks", MVal.n 3)]).text ≤ 10 + 3 :=
  chunk_size_bound charCnt 5 10 3
    (fun a b => Nat.le_of_eq (charCnt_space_append a b)) charCnt_nil
    (by decide) (by decide) "aaaaaaaa. bb. ccccccccc." [] (by decide)
    (Chunk.mk "aaaaaaaa." [("chunk_index", MVal.n 0), ("total_chunks", MVal.n 3)])
    (by decide)

/-- The seed that `chunk_text` puts at the start of the next passage after a
close: `[overlap_text] if overlap_text else []`. -/
def seedOf (cnt : String → Nat) (overlapSize : Nat) (prev : List String) : List String :=
  if getOverlapText cnt prev overlapSize = "" then []
  else [getOverlapText cnt prev overlapSize]

/-- Removes, from each emitted passage's fragment list, the overlap seed
copied out of the previous passage (`prev` is the fragment list of the
passage before the first one, `[]` at the start). -/
def stripFrom (cnt : String → Nat) (overlapSize : Nat) :
    List String → List (List String) → List String
  | _, [] => []
  | prev, c :: rest =>
      (if getOverlapText cnt prev overlapSize = "" then c else c.tail) ++
        stripFrom cnt overlapSize c rest

lemma chunkCore_strip (cnt : String → Nat) (maxSize overlapSize : Nat) :
    ∀ (rest own : List String) (prev : List String) (curTok : Nat),
      stripFrom cnt overlapSize prev
        (chunkCore cnt maxSize overlapSize rest (seedOf cnt overlapSize prev ++ own) curTok)
      = own ++ rest
  | [], own, prev, curTok => by
      by_cases h : seedOf cnt overlapSize prev ++ own = []
      · simp only [chunkCore, h, if_pos]
        rcases List.append_eq_nil.mp h with ⟨-, h2⟩
        simp [stripFrom, h2]
      · simp only [chunkCore, h, if_neg, if_false]
        by_cases hov : getOverlapText cnt prev overlapSize = ""
        · simp [stripFrom, hov, seedOf]
        · simp [stripFrom, hov, seedOf]
  | s :: rest, own, prev, curTok => by
      by_cases hc : curTok + cnt s > maxSize ∧ ¬seedOf cnt overlapSize prev ++ own = []
      · simp only [chunkCore]
        rw [if_pos hc]
        have hseed : (if getOverlapText cnt (seedOf cnt overlapSize prev ++ own) overlapSize = ""
              then ([] : List String)
              else [getOverlapText cnt (seedOf cnt overlapSize prev ++ own) overlapSize])
            = seedOf cnt overlapSize (seedOf cnt overlapSize prev ++ own) := rfl
        rw [stripFrom, hseed, chunkCore_strip cnt maxSize overlapSize rest [s] _ _]
        by_cases hov : getOverlapText cnt prev overlapSize = ""
        · simp [hov, seedOf]
        · simp [hov, seedOf]
      · simp only [chunkCore]
        rw [if_neg hc]
        have hassoc : seedOf cnt overlapSize prev ++ own ++ [s]
            = seedOf cnt overlapSize prev ++ (own ++ [s]) := by
          rw [List.append_assoc]
        rw [hassoc, chunkCore_strip cnt maxSize overlapSize rest (own ++ [s]) prev _]
        simp

/-- C6: `chunk_text` drops no content.  If the text fits in
`max_chunk_size` it comes back whole as the single passage with
`chunk_index = 0` and `total_chunks = 1`; otherwise, removing each passage's
seeded overlap prefix and concatenating the passages' fragment lists in
order reconstructs exactly the sentence/blank-line split of the text, and
the emitted passages are precisely those fragment lists joined with spaces. -/
theorem chunk_coverage (cnt : String → Nat) (maxSize overlapSize : Nat)
    (text : String) (metadata : Md) :
    (cnt text ≤ maxSize →
      chunkText cnt maxSize overlapSize text metadata =
        [⟨text, dictInsert "total_chunks" (MVal.n 1)
            (dictInsert "chunk_index" (MVal.n 0) metadata)⟩]) ∧
    stripFrom cnt overlapSize []
        (chunkCore cnt maxSize overlapSize (splitIntoSentences text) [] 0)
      = splitIntoSentences text ∧
    (¬cnt text ≤ maxSize →
      (chunkText cnt maxSize overlapSize text metadata).map Chunk.text =
        (chunkCore cnt maxSize overlapSize (splitIntoSentences text) [] 0).map joinSp) := by
  refine ⟨fun h => by simp [chunkText, h], ?_, fun h => ?_⟩
  · have := chunkCore_strip cnt maxSize overlapSize (splitIntoSentences text) [] [] 0
    simpa [seedOf, getOverlapText, overlapSel, joinSp] using this
  · simp only [chunkText, h, if_false, List.map_map]
    have : ((chunkCore cnt maxSize overlapSize (splitIntoSentences text) [] 0).enum.map
        fun p => joinSp p.2)
        = (chunkCore cnt maxSize overlapSize (splitIntoSentences text) [] 0).map joinSp := by
      rw [← List.enum_map_snd (chunkCore cnt maxSize overlapSize (splitIntoSentences text) [] 0),
        List.map_map]
      simp [Function.comp]
    rw [← this]
    simp [Function.comp]

/-- Witness for `chunk_coverage`: the pass-through case on a short text and
the coverage identities on a text that splits into three sentences. -/
theorem chunk_coverage_witness :
    chunkText charCnt 10 3 "cc" [] =
      [⟨"cc", dictInsert "total_chunks" (MVal.n 1)
          (dictInsert "chunk_index" (MVal.n 0) [])⟩] ∧
    stripFrom charCnt 3 []
        (chunkCore charCnt 10 3 (splitIntoSentences "aaaaaaaa. bb. ccccccccc.") [] 0)
      = splitIntoSentences "aaaaaaaa. bb. ccccccccc." ∧
    (chunkText charCnt 10 3 "aaaaaaaa. bb. ccccccccc." []).map Chunk.text =
      (chunkCore charCnt 10 3 (splitIntoSentences "aaaaaaaa. bb. ccccccccc.") [] 0).map joinSp :=
  ⟨(chunk_coverage charCnt 10 3 "cc" []).1 (by decide),
   (chunk_coverage charCnt 10 3 "aaaaaaaa. bb. ccccccccc." []).2.1,
   (chunk_coverage charCnt 10 3 "aaaaaaaa. bb. ccccccccc." []).2.2 (by decide)⟩

/-- Counterexample to C7 as stated: `chunk_document` does not leave its
structural units unchanged — `metadata["section"] = section` writes into the
unit's own metadata dict, so a unit entering with empty metadata comes back
with a `section` binding. -/
theorem pipeline_mutation_cex :
    (chunkDocument charCnt 10 3 [⟨"cc", "S", []⟩]).2 ≠ [⟨"cc", "S", []⟩] := by
  decide

/-- C7 (amended): `enrich_chunk_metadata` works on a copy and leaves the
metadata mapping passed to it unchanged, but `chunk_document` mutates each
consumed unit's metadata in place, inserting the unit's section label under
`"section"` (and changing nothing else about the units). -/
theorem pipeline_mutation (cnt : String → Nat) (maxSize overlapSize : Nat) :
    (∀ (metadata : Md) (filename fileType : String) (ts : Option String) (now : String),
        (enrichChunkMetadata metadata filename fileType ts now).1 = metadata) ∧
    (∀ units : List SUnit,
        (chunkDocument cnt maxSize overlapSize units).2 =
          units.map fun u =>
            { u with metadata := dictInsert "section" (MVal.s u.sect) u.metadata }) := by
  refine ⟨fun _ _ _ _ _ => rfl, ?_⟩
  intro units
  induction units with
  | nil => rfl
  | cons u rest ih => simp [chunkDocument, ih]

/-- C8: `create_citation` picks exactly one citation form with priority
page > slide > sheet > `"filename, section"`; in particular when both a page
number and a sheet name are present the citation is the page form. -/
theorem citation_priority (metadata : Md) :
    (∀ p sh, dictGet metadata "page_number" = some p →
        dictGet metadata "sheet_name" = some sh →
        createCitation metadata =
          ((dictGet metadata "filename").map mvalStr).getD "Unknown file"
            ++ ", Page " ++ mvalStr p) ∧
    ((∃ p, dictGet metadata "page_number" = some p ∧
        createCitation metadata =
          ((dictGet metadata "filename").map mvalStr).getD "Unknown file"
            ++ ", Page " ++ mvalStr p) ∨
     (dictGet metadata "page_number" = none ∧
        ∃ sl, dictGet metadata "slide_number" = some sl ∧
        createCitation metadata =
          ((dictGet metadata "filename").map mvalStr).getD "Unknown file"
            ++ ", Slide " ++ mvalStr sl) ∨
     (dictGet metadata "page_number" = none ∧ dictGet metadata "slide_number" = none ∧
        ∃ sh, dictGet metadata "sheet_name" = some sh ∧
        createCitation metadata =
          ((dictGet metadata "filename").map mvalStr).getD "Unknown file"
            ++ ", Sheet: " ++ mvalStr sh) ∨
     (dictGet metadata "page_number" = none ∧ dictGet metadata "slide_number" = none ∧
        dictGet metadata "sheet_name" = none ∧
        createCitation metadata =
          ((dictGet metadata "filename").map mvalStr).getD "Unknown file"
            ++ ", " ++ ((dictGet metadata "section").map mvalStr).getD "Unknown section")) := by
  constructor
  · intro p sh hp _
    simp [createCitation, hp]
  · rcases hp : dictGet metadata "page_number" with _ | p
    · rcases hsl : dictGet metadata "slide_number" with _ | sl
      · rcases hsh : dictGet metadata "sheet_name" with _ | sh
        · exact Or.inr (Or.inr (Or.inr ⟨rfl, rfl, rfl, by simp [createCitation, hp, hsl, hsh]⟩))
        · exact Or.inr (Or.inr (Or.inl ⟨rfl, rfl, sh, rfl, by simp [createCitation, hp, hsl, hsh]⟩))
      · exact Or.inr (Or.inl ⟨rfl, sl, rfl, by simp [createCitation, hp, hsl]⟩)
    · exact Or.inl ⟨p, rfl, by simp [createCitation, hp]⟩

/-- Witness for `citation_priority`: metadata holding both a page number and
a sheet name is cited by page. -/
theorem citation_priority_witness :
    createCitation
        [("filename", MVal.s "report.pdf"), ("page_number", MVal.n 3),
         ("sheet_name", MVal.s "Q1")] =
      ((dictGet [("filename", MVal.s "report.pdf"), ("page_number", MVal.n 3),
          ("sheet_name", MVal.s "Q1")] "filename").map mvalStr).getD "Unknown file"
        ++ ", Page " ++ mvalStr (MVal.n 3) :=
  (citation_priority
      [("filename", MVal.s "report.pdf"), ("page_number", MVal.n 3),
       ("sheet_name", MVal.s "Q1")]).1
    (MVal.n 3) (MVal.s "Q1") (by decide) (by decide)

lemma joinNl_cons_cons (s t : String) (l : List String) :
    joinNl (s :: t :: l) = s ++ "\n" ++ joinNl (t :: l) := rfl

lemma joinNl_flat {α : Type} (a b : α → String) :
    ∀ (L : List α) (h : String),
      joinNl (h :: L.flatMap fun x => [a x, b x, ""]) =
        h ++ strJoin (L.map fun x => "\n" ++ a x ++ "\n" ++ b x ++ "\n")
  | [], h => by simp [joinNl, strJoin]
  | x :: L, h => by
      have ih := joinNl_flat a b L ""
      show joinNl (h :: a x :: b x :: "" :: L.flatMap fun y => [a y, b y, ""]) = _
      rw [joinNl_cons_cons, joinNl_cons_cons, joinNl_cons_cons, ih]
      apply stringExt
      simp [String.data_append, strJoin, List.append_assoc]

/-- C9: `format_context_for_agent` returns the fixed no-information sentinel
exactly when the retrieval result failed or has no chunks, and otherwise
returns the header followed, for the i-th chunk/citation pair (counting from
1), by the tag `[Source i: citation]` and then the passage text, in result
order. -/
theorem format_context_spec (r : RetrievalResult) :
    (formatContextForAgent r = "No relevant information found in the database."
        ↔ (r.success = false ∨ r.chunks = [])) ∧
    (r.success = true → r.chunks ≠ [] →
      formatContextForAgent r =
        "Retrieved information from documents:\n" ++
          strJoin ((r.chunks.zip r.citations).enum.map fun p =>
            "\n" ++ ("\n[Source " ++ natRepr (p.1 + 1) ++ ": " ++ p.2.2 ++ "]")
              ++ "\n" ++ p.2.1 ++ "\n")) := by
  have hform : r.success = true → r.chunks ≠ [] →
      formatContextForAgent r =
        "Retrieved information from documents:\n" ++
          strJoin ((r.chunks.zip r.citations).enum.map fun p =>
            "\n" ++ ("\n[Source " ++ natRepr (p.1 + 1) ++ ": " ++ p.2.2 ++ "]")
              ++ "\n" ++ p.2.1 ++ "\n") := by
    intro hs hc
    unfold formatContextForAgent
    rw [hs]
    simp only [Bool.not_true, Bool.false_eq_true, if_false]
    rw [if_neg hc]
    show joinNl ("Retrieved information from documents:\n" ::
        (r.chunks.zip r.citations).enum.flatMap fun p =>
          ["\n[Source " ++ natRepr (p.1 + 1) ++ ": " ++ p.2.2 ++ "]", p.2.1, ""]) = _
    rw [joinNl_flat (fun p => "\n[Source " ++ natRepr (p.1 + 1) ++ ": " ++ p.2.2 ++ "]")
      (fun p => p.2.1) ((r.chunks.zip r.citations).enum)]
  refine ⟨?_, hform⟩
  rcases hs : r.success with _ | _
  · simp only [formatContextForAgent, hs]
    simp
  · rcases hc : r.chunks with _ | ⟨c0, cs⟩
    · simp only [formatContextForAgent, hs, hc]
      simp
    · constructor
      · intro h
        exfalso
        have hform2 := hform hs (by rw [hc]; simp)
        have hd := congrArg String.data (hform2.symm.trans h)
        rw [String.data_append] at hd
        have h2 : ("Retrieved information from documents:\n").data
            = 'R' :: ("etrieved information from documents:\n").data := by decide
        have h3 : ("No relevant information found in the database.").data
            = 'N' :: ("o relevant information found in the database.").data := by decide
        rw [h2, h3, List.cons_append] at hd
        injection hd with h4 _
        exact absurd h4 (by decide)
      · intro h
        rcases h with h | h
        · simp at h
        · simp at h

/-- Witness for `format_context_spec` on a one-result retrieval. -/
theorem format_context_spec_witness :
    formatContextForAgent ⟨true, ["alpha"], ["doc.pdf, Page 1"]⟩ =
      "Retrieved information from documents:\n" ++
        strJoin (((["alpha"].zip ["doc.pdf, Page 1"]).enum).map fun p =>
          "\n" ++ ("\n[Source " ++ natRepr (p.1 + 1) ++ ": " ++ p.2.2 ++ "]")
            ++ "\n" ++ p.2.1 ++ "\n") :=
  (format_context_spec ⟨true, ["alpha"], ["doc.pdf, Page 1"]⟩).2 rfl (by decide)

lemma charVal_digitChar : ∀ r, r < 10 → charVal (digitChar r) = r := by decide

lemma digitChar_isDigit : ∀ r, r < 10 → (digitChar r).isDigit = true := by decide

lemma digitsVal_append (l : List Char) (c : Char) :
    digitsVal (l ++ [c]) = 10 * digitsVal l + charVal c := by
  simp [digitsVal, List.foldl_append]

lemma natDigitsCore_val : ∀ (fuel n : Nat), n < fuel →
    digitsVal (natDigitsCore fuel n) = n
  | 0, n, h => absurd h (Nat.not_lt_zero n)
  | fuel + 1, n, h => by
      by_cases h10 : n < 10
      · simp only [natDigitsCore, h10, if_true]
        simpa [digitsVal] using charVal_digitChar n h10
      · have hpos : 0 < n := by omega
        have hdiv : n / 10 < fuel := by
          have := Nat.div_lt_self hpos (by omega : 1 < 10)
          omega
        simp only [natDigitsCore, h10, if_false]
        rw [digitsVal_append, natDigitsCore_val fuel (n / 10) hdiv,
          charVal_digitChar (n % 10) (Nat.mod_lt n (by omega))]
        omega

lemma natRepr_inj {m n : Nat} (h : natRepr m = natRepr n) : m = n := by
  have hd : natDigitsCore (m + 1) m = natDigitsCore (n + 1) n := congrArg String.data h
  calc m = digitsVal (natDigitsCore (m + 1) m) :=
        (natDigitsCore_val (m + 1) m (Nat.lt_succ_self m)).symm
    _ = digitsVal (natDigitsCore (n + 1) n) := by rw [hd]
    _ = n := natDigitsCore_val (n + 1) n (Nat.lt_succ_self n)

lemma natDigitsCore_isDigit : ∀ (fuel n : Nat), n < fuel →
    ∀ c ∈ natDigitsCore fuel n, c.isDigit = true
  | 0, n, h => absurd h (Nat.not_lt_zero n)
  | fuel + 1, n, h => by
      by_cases h10 : n < 10
      · simp only [natDigitsCore, h10, if_true, List.mem_singleton]
        rintro c rfl
        exact digitChar_isDigit n h10
      · intro c hc
        have hpos : 0 < n := by omega
        have hdiv : n / 10 < fuel := by
          have := Nat.div_lt_self hpos (by omega : 1 < 10)
          omega
        simp only [natDigitsCore, h10, if_false, List.mem_append, List.mem_singleton] at hc
        rcases hc with hc | rfl
        · exact natDigitsCore_isDigit fuel (n / 10) hdiv c hc
        · exact digitChar_isDigit (n % 10) (Nat.mod_lt n (by omega))

lemma natRepr_isDigit (n : Nat) : ∀ c ∈ (natRepr n).data, c.isDigit = true :=
  natDigitsCore_isDigit (n + 1) n (Nat.lt_succ_self n)

lemma digits_sep_inj : ∀ (d1 d2 t1 t2 : List Char),
    (∀ c ∈ d1, c.isDigit = true) → (∀ c ∈ d2, c.isDigit = true) →
    d1 ++ '_' :: t1 = d2 ++ '_' :: t2 → d1 = d2
  | [], [], _, _, _, _, _ => rfl
  | [], c2 :: d2, t1, t2, _, h2, heq => by
      injection heq with hh _
      have := h2 c2 (List.mem_cons_self ..)
      rw [← hh] at this
      exact absurd this (by decide)
  | c1 :: d1, [], t1, t2, h1, _, heq => by
      injection heq with hh _
      have := h1 c1 (List.mem_cons_self ..)
      rw [hh] at this
      exact absurd this (by decide)
  | c1 :: d1, c2 :: d2, t1, t2, h1, h2, heq => by
      injection heq with hh ht
      have hrec := digits_sep_inj d1 d2 t1 t2
        (fun c hc => h1 c (List.mem_cons_of_mem _ hc))
        (fun c hc => h2 c (List.mem_cons_of_mem _ hc)) ht
      rw [hh, hrec]

/-- The ID built by `generate_chunk_id` determines the chunk index: IDs with
different indices differ, whatever the (already normalized or not) section
labels are. -/
lemma generateChunkId_index_inj (filename s1 s2 : String) {i j : Nat}
    (hij : i ≠ j) : generateChunkId filename s1 i ≠ generateChunkId filename s2 j := by
  intro h
  apply hij
  have hd := congrArg String.data h
  simp only [generateChunkId, String.data_append] at hd
  have hrev := congrArg List.reverse hd
  simp only [List.reverse_append] at hrev
  have hCrev : ("__chunk_").data.reverse = '_' :: ['k', 'n', 'u', 'h', 'c', '_', '_'] := by
    decide
  rw [hCrev] at hrev
  have hdig1 : ∀ c ∈ (natRepr i).data.reverse, c.isDigit = true := fun c hc =>
    natRepr_isDigit i c (List.mem_reverse.mp hc)
  have hdig2 : ∀ c ∈ (natRepr j).data.reverse, c.isDigit = true := fun c hc =>
    natRepr_isDigit j c (List.mem_reverse.mp hc)
  have hdd := digits_sep_inj ((natRepr i).data.reverse) ((natRepr j).data.reverse)
    _ _ hdig1 hdig2 hrev
  have := List.reverse_injective hdd
  exact natRepr_inj (stringExt this)

lemma ingestIds_enumFrom_nodup (name : String) :
    ∀ (k : Nat) (l : List Chunk),
      ((l.enumFrom k).map fun p =>
        generateChunkId name (getSectionStr p.2.metadata) p.1).Nodup
  | _, [] => by simp
  | k, c :: l => by
      simp only [List.enumFrom, List.map_cons, List.nodup_cons]
      refine ⟨?_, ingestIds_enumFrom_nodup name (k + 1) l⟩
      intro hmem
      rw [List.mem_map] at hmem
      obtain ⟨p, hp, heq⟩ := hmem
      have hk : k + 1 ≤ p.1 := List.le_fst_of_mem_enumFrom hp
      exact generateChunkId_index_inj name (getSectionStr p.2.metadata)
        (getSectionStr c.metadata) (by omega : p.1 ≠ k) heq

/-- C10: within one `ingest_document` call the generated chunk IDs are
pairwise distinct whatever the chunks' section labels are, because the ID's
index component is the chunk's unique position in the document-wide chunk
list (a decimal rendering preceded by the non-digit `_` of `__chunk_`, so
distinct positions force distinct ID strings). -/
theorem chunk_ids_nodup (name : String) (chunks : List Chunk) :
    (ingestIdsOf name chunks).Nodup := by
  unfold ingestIdsOf
  exact ingestIds_enumFrom_nodup name 0 chunks

/-- A concrete environment: the parser yields two structural units (the first
splits into two passages under `charCnt` with `max=10`), embedding and the
store always succeed. -/
def cexEnv : IngestEnv Nat :=
  ⟨fun _ _ => Except.ok
      [⟨"aaaaaaaa. bbbbbbbb.", "S1", []⟩, ⟨"cc", "S2", []⟩],
   fun ts => Except.ok (ts.map fun _ => 0),
   fun _ _ _ _ _ => none,
   "t0"⟩

/-- Counterexample to C2 as stated: the ID's index component is not the
passage's `chunk_index` within its own structural unit.  The third stored
passage (the single chunk of unit `S2`) has `chunk_index = 0` in its
metadata, yet its stored ID is `doc__S2__chunk_2` (its position in the
document-wide list), and the ID the per-unit formula would give,
`doc__S2__chunk_0`, is stored nowhere. -/
theorem ingest_ids_formula_cex :
    (ingestDocument cexEnv charCnt 10 3 [] "doc.pdf").1.success = true ∧
    (ingestDocument cexEnv charCnt 10 3 [] "doc.pdf").2.map (fun c => c.id) =
      ["doc__S1__chunk_0", "doc__S1__chunk_1", "doc__S2__chunk_2"] ∧
    (∃ c ∈ (ingestDocument cexEnv charCnt 10 3 [] "doc.pdf").2,
      dictGet c.metadata "chunk_index" = some (MVal.n 0) ∧
      dictGet c.metadata "section" = some (MVal.s "S2") ∧
      c.id = "doc__S2__chunk_2") ∧
    ¬ "doc__S2__chunk_0" ∈
        (ingestDocument cexEnv charCnt 10 3 [] "doc.pdf").2.map (fun c => c.id) := by
  decide

/-- C2 (amended): on a successful ingestion the store receives exactly the
document's chunks under IDs
`generate_chunk_id(filename, chunk.metadata["section"], idx)` where `idx` is
the chunk's position in the document-wide enumeration of all chunks (not its
per-unit `chunk_index`); the filename-stem and section normalization is the
one performed by `generate_chunk_id`. -/
theorem ingest_ids_formula {Emb : Type} (env : IngestEnv Emb) (cnt : String → Nat)
    (maxSize overlapSize : Nat) (store : Store Emb) (filePath : String)
    (h : (ingestDocument env cnt maxSize overlapSize store filePath).1.success = true) :
    ∃ units embeddings,
      env.parse (fileTypeOf filePath) filePath = Except.ok units ∧
      (ingestDocument env cnt maxSize overlapSize store filePath).2 =
        addChunksModel store
          ((ingestChunks cnt maxSize overlapSize (pathName filePath)
              (fileTypeOf filePath) env.now units).map Chunk.text)
          ((ingestChunks cnt maxSize overlapSize (pathName filePath)
              (fileTypeOf filePath) env.now units).map Chunk.metadata)
          ((ingestChunks cnt maxSize overlapSize (pathName filePath)
              (fileTypeOf filePath) env.now units).enum.map fun p =>
            generateChunkId (pathName filePath) (getSectionStr p.2.metadata) p.1)
          embeddings := by
  by_cases hft : fileTypeOf filePath ∈ ["pdf", "pptx", "docx", "xlsx"]
  · rcases hp : env.parse (fileTypeOf filePath) filePath with e | units
    · simp [ingestDocument, hft, hp, failResult] at h
    · by_cases hemp : units = []
      · simp [ingestDocument, hft, hp, hemp, failResult] at h
      · rcases he : env.embedTexts ((ingestChunks cnt maxSize overlapSize
            (pathName filePath) (fileTypeOf filePath) env.now units).map Chunk.text)
          with e | embeddings
        · simp [ingestDocument, hft, hp, hemp, he, failResult] at h
        · rcases ha : env.addOk store
              ((ingestChunks cnt maxSize overlapSize (pathName filePath)
                (fileTypeOf filePath) env.now units).map Chunk.text)
              ((ingestChunks cnt maxSize overlapSize (pathName filePath)
                (fileTypeOf filePath) env.now units).map Chunk.metadata)
              (ingestIdsOf (pathName filePath) (ingestChunks cnt maxSize overlapSize
                (pathName filePath) (fileTypeOf filePath) env.now units))
              embeddings with _ | e
          · refine ⟨units, embeddings, rfl, ?_⟩
            simp only [ingestIdsOf] at ha
            simp only [ingestDocument, hft, if_true, hp, if_neg hemp, he, ingestIdsOf, ha]
          · simp [ingestDocument, hft, hp, hemp, he, ha, failResult] at h
  · simp [ingestDocument, hft, failResult] at h

/-- Witness for `ingest_ids_formula` on the concrete environment. -/
theorem ingest_ids_formula_witness :
    ∃ units embeddings,
      cexEnv.parse (fileTypeOf "doc.pdf") "doc.pdf" = Except.ok units ∧
      (ingestDocument cexEnv charCnt 10 3 [] "doc.pdf").2 =
        addChunksModel []
          ((ingestChunks charCnt 10 3 (pathName "doc.pdf")
              (fileTypeOf "doc.pdf") cexEnv.now units).map Chunk.text)
          ((ingestChunks charCnt 10 3 (pathName "doc.pdf")
              (fileTypeOf "doc.pdf") cexEnv.now units).map Chunk.metadata)
          ((ingestChunks charCnt 10 3 (pathName "doc.pdf")
              (fileTypeOf "doc.pdf") cexEnv.now units).enum.map fun p =>
            generateChunkId (pathName "doc.pdf") (getSectionStr p.2.metadata) p.1)
          embeddings :=
  ingest_ids_formula cexEnv charCnt 10 3 [] "doc.pdf" (by decide)

lemma ingestDocument_fail_store {Emb : Type} (env : IngestEnv Emb) (cnt : String → Nat)
    (maxSize overlapSize : Nat) (store : Store Emb) (filePath : String)
    (h : (ingestDocument env cnt maxSize overlapSize store filePath).1.success = false) :
    (ingestDocument env cnt maxSize overlapSize store filePath).2 = store := by
  by_cases hft : fileTypeOf filePath ∈ ["pdf", "pptx", "docx", "xlsx"]
  · rcases hp : env.parse (fileTypeOf filePath) filePath with e | units
    · simp [ingestDocument, hft, hp, failResult]
    · by_cases hemp : units = []
      · simp [ingestDocument, hft, hp, hemp, failResult]
      · rcases he : env.embedTexts ((ingestChunks cnt maxSize overlapSize
            (pathName filePath) (fileTypeOf filePath) env.now units).map Chunk.text)
          with e | embeddings
        · simp [ingestDocument, hft, hp, hemp, he, failResult]
        · rcases ha : env.addOk store
              ((ingestChunks cnt maxSize overlapSize (pathName filePath)
                (fileTypeOf filePath) env.now units).map Chunk.text)
              ((ingestChunks cnt maxSize overlapSize (pathName filePath)
                (fileTypeOf filePath) env.now units).map Chunk.metadata)
              (ingestIdsOf (pathName filePath) (ingestChunks cnt maxSize overlapSize
                (pathName filePath) (fileTypeOf filePath) env.now units))
              embeddings with _ | e
          · simp [ingestDocument, hft, hp, hemp, he, ha] at h
          · simp [ingestDocument, hft, hp, hemp, he, ha, failResult]
  · simp [ingestDocument, hft, failResult]

/-- C4: `ingest_document` succeeds exactly when the extension is supported,
the parser returns a non-empty unit list, the embedding call succeeds, and
the store accepts the `add`; in every other case it returns a structured
error result carrying `error` and `file` (it is a total function, so no
exception reaches the caller), and on failure the store is unchanged —
nothing is persisted for that file (the `add` is modelled as atomic, per the
spec's single-terminal-step contract). -/
theorem ingest_error_handling {Emb : Type} (env : IngestEnv Emb) (cnt : String → Nat)
    (maxSize overlapSize : Nat) (store : Store Emb) (filePath : String) :
    ((ingestDocument env cnt maxSize overlapSize store filePath).1.success = true ↔
      (fileTypeOf filePath ∈ ["pdf", "pptx", "docx", "xlsx"] ∧
       ∃ units, env.parse (fileTypeOf filePath) filePath = Except.ok units ∧
         units ≠ [] ∧
         ∃ embeddings,
           env.embedTexts ((ingestChunks cnt maxSize overlapSize (pathName filePath)
             (fileTypeOf filePath) env.now units).map Chunk.text) = Except.ok embeddings ∧
           env.addOk store
             ((ingestChunks cnt maxSize overlapSize (pathName filePath)
               (fileTypeOf filePath) env.now units).map Chunk.text)
             ((ingestChunks cnt maxSize overlapSize (pathName filePath)
               (fileTypeOf filePath) env.now units).map Chunk.metadata)
             (ingestIdsOf (pathName filePath) (ingestChunks cnt maxSize overlapSize
               (pathName filePath) (fileTypeOf filePath) env.now units))
             embeddings = none)) ∧
    ((ingestDocument env cnt maxSize overlapSize store filePath).1.success = false →
      (∃ e, (ingestDocument env cnt maxSize overlapSize store filePath).1.error = some e) ∧
      (ingestDocument env cnt maxSize overlapSize store filePath).1.file = pathName filePath ∧
      (ingestDocument env cnt maxSize overlapSize store filePath).2 = store) := by
  by_cases hft : fileTypeOf filePath ∈ ["pdf", "pptx", "docx", "xlsx"]
  · rcases hp : env.parse (fileTypeOf filePath) filePath with e | units
    · have hred : ingestDocument env cnt maxSize overlapSize store filePath =
          (failResult e (pathName filePath), store) := by
        simp [ingestDocument, hft, hp]
      rw [hred]
      refine ⟨⟨fun hx => (by cases hx), fun hx => ?_⟩, fun _ => ⟨⟨e, rfl⟩, rfl, rfl⟩⟩
      obtain ⟨-, units2, hu, -⟩ := hx
      cases hu
    · by_cases hemp : units = []
      · subst hemp
        have hred : ingestDocument env cnt maxSize overlapSize store filePath =
            (failResult "No content extracted from document" (pathName filePath), store) := by
          simp [ingestDocument, hft, hp]
        rw [hred]
        refine ⟨⟨fun hx => (by cases hx), fun hx => ?_⟩,
          fun _ => ⟨⟨"No content extracted from document", rfl⟩, rfl, rfl⟩⟩
        obtain ⟨-, units2, hu, hne, -⟩ := hx
        cases hu
        exact absurd rfl hne
      · rcases he : env.embedTexts ((ingestChunks cnt maxSize overlapSize
            (pathName filePath) (fileTypeOf filePath) env.now units).map Chunk.text)
          with e | embeddings
        · have hred : ingestDocument env cnt maxSize overlapSize store filePath =
              (failResult e (pathName filePath), store) := by
            simp [ingestDocument, hft, hp, hemp, he]
          rw [hred]
          refine ⟨⟨fun hx => (by cases hx), fun hx => ?_⟩, fun _ => ⟨⟨e, rfl⟩, rfl, rfl⟩⟩
          obtain ⟨-, units2, hu, -, embeddings2, he2, -⟩ := hx
          cases hu
          rw [he] at he2
          cases he2
        · rcases ha : env.addOk store
              ((ingestChunks cnt maxSize overlapSize (pathName filePath)
                (fileTypeOf filePath) env.now units).map Chunk.text)
              ((ingestChunks cnt maxSize overlapSize (pathName filePath)
                (fileTypeOf filePath) env.now units).map Chunk.metadata)
              (ingestIdsOf (pathName filePath) (ingestChunks cnt maxSize overlapSize
                (pathName filePath) (fileTypeOf filePath) env.now units))
              embeddings with _ | e
          · have hsucc : (ingestDocument env cnt maxSize overlapSize store filePath).1.success
                = true := by
              simp [ingestDocument, hft, hp, hemp, he, ha]
            refine ⟨⟨fun _ => ⟨hft, units, rfl, hemp, embeddings, he, ha⟩, fun _ => hsucc⟩,
              fun hx => ?_⟩
            rw [hsucc] at hx
            cases hx
          · have hred : ingestDocument env cnt maxSize overlapSize store filePath =
                (failResult e (pathName filePath), store) := by
              simp [ingestDocument, hft, hp, hemp, he, ha]
            rw [hred]
            refine ⟨⟨fun hx => (by cases hx), fun hx => ?_⟩, fun _ => ⟨⟨e, rfl⟩, rfl, rfl⟩⟩
            obtain ⟨-, units2, hu, -, embeddings2, he2, ha2⟩ := hx
            cases hu
            rw [he] at he2
            cases he2
            rw [ha] at ha2
            cases ha2
  · have hred : ingestDocument env cnt maxSize overlapSize store filePath =
        (failResult ("Unsupported file type: " ++ fileTypeOf filePath) (pathName filePath),
         store) := by
      simp [ingestDocument, hft]
    rw [hred]
    refine ⟨⟨fun hx => (by cases hx), fun hx => absurd hx.1 hft⟩,
      fun _ => ⟨⟨"Unsupported file type: " ++ fileTypeOf filePath, rfl⟩, rfl, rfl⟩⟩

/-- Witness for `ingest_error_handling`: ingesting an unsupported `.txt`
path fails with an error result and leaves the store empty. -/
theorem ingest_error_handling_witness :
    (∃ e, (ingestDocument cexEnv charCnt 10 3 [] "notes.txt").1.error = some e) ∧
    (ingestDocument cexEnv charCnt 10 3 [] "notes.txt").1.file = pathName "notes.txt" ∧
    (ingestDocument cexEnv charCnt 10 3 [] "notes.txt").2 = [] :=
  (ingest_error_handling cexEnv charCnt 10 3 [] "notes.txt").2 (by decide)

lemma ingestMany_length {Emb : Type} (env : IngestEnv Emb) (cnt : String → Nat)
    (maxSize overlapSize : Nat) :
    ∀ (filePaths : List String) (store : Store Emb),
      (ingestMany env cnt maxSize overlapSize store filePaths).1.length = filePaths.length
  | [], _ => rfl
  | p :: ps, store => by
      simp only [ingestMany, List.length_cons]
      rw [ingestMany_length env cnt maxSize overlapSize ps _]

lemma length_filter_success (l : List IngestResult) :
    (l.filter fun r => r.success).length + (l.filter fun r => !r.success).length
      = l.length := by
  induction l with
  | nil => rfl
  | cons r l ih =>
      by_cases h : r.success = true <;>
        simp only [List.filter_cons, h, Bool.not_true, Bool.not_false, if_true, if_false,
          Bool.false_eq_true, Bool.true_eq_false, List.length_cons] <;>
        omega

/-- C3: `ingest_multiple_documents` processes every file (one result per
input path, whatever succeeded or failed), reports `total_files` as the
number of input paths with `successful + failed = total_files`, sums
`total_chunks` over the successful per-file results only, and isolates
faults: when the first file of a batch fails, the remaining files produce
exactly the results they would produce without it (the failed file leaves
the store untouched). -/
theorem ingest_batch_spec {Emb : Type} (env : IngestEnv Emb) (cnt : String → Nat)
    (maxSize overlapSize : Nat) (store : Store Emb) (filePaths : List String) :
    (ingestMultipleDocuments env cnt maxSize overlapSize store filePaths).1.totalFiles
      = filePaths.length ∧
    (ingestMultipleDocuments env cnt maxSize overlapSize store filePaths).1.results.length
      = filePaths.length ∧
    (ingestMultipleDocuments env cnt maxSize overlapSize store filePaths).1.successful
        + (ingestMultipleDocuments env cnt maxSize overlapSize store filePaths).1.failed
      = (ingestMultipleDocuments env cnt maxSize overlapSize store filePaths).1.totalFiles ∧
    (ingestMultipleDocuments env cnt maxSize overlapSize store filePaths).1.totalChunks
      = (((ingestMultipleDocuments env cnt maxSize overlapSize store filePaths).1.results.filter
            fun r => r.success).map fun r => r.chunksCreated.getD 0).sum ∧
    (∀ (p : String) (ps : List String) (store0 : Store Emb),
      (ingestDocument env cnt maxSize overlapSize store0 p).1.success = false →
      (ingestMany env cnt maxSize overlapSize store0 (p :: ps)).1 =
        (ingestDocument env cnt maxSize overlapSize store0 p).1 ::
          (ingestMany env cnt maxSize overlapSize store0 ps).1) := by
  refine ⟨rfl, ?_, ?_, rfl, ?_⟩
  · exact ingestMany_length env cnt maxSize overlapSize filePaths store
  · show ((ingestMany env cnt maxSize overlapSize store filePaths).1.filter
        fun r => r.success).length
      + ((ingestMany env cnt maxSize overlapSize store filePaths).1.filter
        fun r => !r.success).length = filePaths.length
    rw [length_filter_success (ingestMany env cnt maxSize overlapSize store filePaths).1]
    exact ingestMany_length env cnt maxSize overlapSize filePaths store
  · intro p ps store0 hfail
    have hst := ingestDocument_fail_store env cnt maxSize overlapSize store0 p hfail
    simp only [ingestMany, hst]

/-- Witness for `ingest_batch_spec`: a batch of one good and one unsupported
file; the unsupported file's failure does not change what the good file
produces. -/
theorem ingest_batch_spec_witness :
    (ingestMultipleDocuments cexEnv charCnt 10 3 [] ["doc.pdf", "notes.txt"]).1.totalFiles
      = 2 ∧
    (ingestMany cexEnv charCnt 10 3 [] ["notes.txt", "doc.pdf"]).1 =
      (ingestDocument cexEnv charCnt 10 3 [] "notes.txt").1 ::
        (ingestMany cexEnv charCnt 10 3 [] ["doc.pdf"]).1 :=
  ⟨(ingest_batch_spec cexEnv charCnt 10 3 [] ["doc.pdf", "notes.txt"]).1,
   (ingest_batch_spec cexEnv charCnt 10 3 [] ["doc.pdf", "notes.txt"]).2.2.2.2
     "notes.txt" ["doc.pdf"] [] (by decide)⟩
